import Mathlib

/-!
Verification of the FITS → PNG/JSON conversion pipeline
(`src/FITS2PNG_JSON.py`) against its natural-language specification.

The Python source is shallowly embedded below.  Finite float64 values are
modelled as rationals (`ℚ`); the special values NaN/±Inf that can occur in a
raw FITS data buffer are modelled explicitly by the `FVal` type.  Calls into
the astropy `Time` parser and the matplotlib renderer — external libraries
whose outcome the pipeline only observes as "succeeded with a value" or
"raised / returned False" — are modelled as explicit function parameters
(`parseTime`, `renderOk`).  Everything else is translated definition by
definition from the source.
-/

namespace FITS2PNG

/-! ### Header values

A FITS header card value, as astropy hands it to the Python code: a plain
Python scalar (int, float, bool, str) or a numpy scalar wrapper
(`np.generic`), which `header_to_dict` unwraps via `.item()`. -/

inductive PyScalar where
  | int (z : ℤ)
  | float (q : ℚ)
  | bool (b : Bool)
  | str (s : String)
deriving DecidableEq

inductive HVal where
  | scalar (v : PyScalar)
  | npGeneric (v : PyScalar)
deriving DecidableEq

/-- `val.item()` applied when `isinstance(val, np.generic)` holds, as in
`header_to_dict` (source lines 21–22): unwraps a numpy scalar wrapper to the
corresponding plain Python scalar; plain scalars are left untouched. -/
def npItem : HVal → HVal
  | .npGeneric v => .scalar v
  | v => v

/-! ### Python `float(x)`

`extract_metadata` applies the Python builtin `float` to header values
(source lines 54–57).  On ints/floats it is the numeric value, on bools it is
1.0/0.0, and on strings it parses an optional sign, decimal digits with at
most one point (at least one digit overall) and an optional decimal exponent,
raising `ValueError` otherwise (modelled as `none`).  Non-finite literals
such as "inf"/"nan" are outside the scope of this model. -/

def digitsVal (l : List Char) : ℕ :=
  l.foldl (fun a c => a * 10 + (c.toNat - 48)) 0

def isDigits (l : List Char) : Bool :=
  !l.isEmpty && l.all Char.isDigit

def parseFrac? (l : List Char) : Option ℚ :=
  let ip := l.takeWhile (fun c => c != '.')
  let rest := l.dropWhile (fun c => c != '.')
  match rest with
  | [] => if isDigits ip then some (digitsVal ip : ℚ) else none
  | _ :: fp =>
      if ip.all Char.isDigit && fp.all Char.isDigit && (!ip.isEmpty || !fp.isEmpty) then
        some ((digitsVal ip : ℚ) + (digitsVal fp : ℚ) / (10 : ℚ) ^ fp.length)
      else none

def parseSigned? (l : List Char) : Option ℚ :=
  match l with
  | '+' :: r => parseFrac? r
  | '-' :: r => (parseFrac? r).map Neg.neg
  | r => parseFrac? r

def parseExp? (l : List Char) : Option ℤ :=
  match l with
  | '+' :: r => if isDigits r then some (digitsVal r : ℤ) else none
  | '-' :: r => if isDigits r then some (-(digitsVal r : ℤ)) else none
  | r => if isDigits r then some (digitsVal r : ℤ) else none

def parseFloat? (s : String) : Option ℚ :=
  let l := s.trim.toList
  let m := l.takeWhile (fun c => c != 'e' && c != 'E')
  let rest := l.dropWhile (fun c => c != 'e' && c != 'E')
  match rest with
  | [] => parseSigned? m
  | _ :: es =>
      match parseSigned? m, parseExp? es with
      | some q, some z => some (q * (10 : ℚ) ^ z)
      | _, _ => none

def pyFloat? : PyScalar → Option ℚ
  | .int z => some (z : ℚ)
  | .float q => some q
  | .bool b => some (if b then 1 else 0)
  | .str s => parseFloat? s

/-- Python `float(header[k])`: numpy scalar wrappers convert through their
underlying value. -/
def pyFloatH? : HVal → Option ℚ
  | .scalar s => pyFloat? s
  | .npGeneric s => pyFloat? s

/-! ### Headers -/

/-- One FITS header card (key/value/comment record).  astropy normalizes
keywords on construction, so membership tests in the source are plain
comparisons against the stored keyword. -/
structure Card where
  keyword : String
  value : HVal
  comment : String
deriving DecidableEq

/-- astropy `k in header`. -/
def headerMem (h : List Card) (k : String) : Bool :=
  h.any (fun c => c.keyword == k)

/-- astropy `header[k]`: the value of the first card with keyword `k`,
defined exactly when `k in header`. -/
def headerGet? (h : List Card) (k : String) : Option HVal :=
  (h.find? (fun c => c.keyword == k)).map Card.value

/-! ### Python dicts

`header_to_dict` and `extract_comments` build Python dicts by repeated
assignment `d[key] = v`: an existing key keeps its position and gets the new
value, a new key is appended.  Modelled as an association list with exactly
that update rule. -/

def dictInsert : List (String × α) → String → α → List (String × α)
  | [], k, v => [(k, v)]
  | p :: tl, k, v => if p.1 == k then (k, v) :: tl else p :: dictInsert tl k v

def dictGet? (d : List (String × α)) (k : String) : Option α :=
  (d.find? (fun p => p.1 == k)).map Prod.snd

/-- `header_to_dict(header)` (source lines 14–24): iterate the cards in
order; skip cards whose keyword is empty or one of the reserved free-text
keywords `COMMENT`/`HISTORY`; unwrap numpy scalar values via `.item()`;
assign into the dict (so a repeated keyword ends with its last value). -/
def header_to_dict (header : List Card) : List (String × HVal) :=
  header.foldl
    (fun d card =>
      if card.keyword == "" || card.keyword == "COMMENT" || card.keyword == "HISTORY" then d
      else dictInsert d card.keyword (npItem card.value))
    []

/-- `extract_comments(header)` (source lines 26–31): record
`comments[keyword] = comment` for every card whose keyword and comment are
both non-empty (Python truthiness of the two strings). -/
def extract_comments (header : List Card) : List (String × String) :=
  header.foldl
    (fun m card =>
      if card.keyword != "" && card.comment != "" then dictInsert m card.keyword card.comment
      else m)
    []

/-! ### Data buffers

A raw FITS primary-HDU data array may contain NaN and ±Inf; after
`np.nan_to_num` every element is a finite float64, so the processed buffer
carries plain rationals. -/

inductive FVal where
  | nan
  | posInf
  | negInf
  | finite (q : ℚ)
deriving DecidableEq

structure RawBuffer where
  height : ℕ
  width : ℕ
  dtype : String
  elems : List FVal
deriving DecidableEq

structure Buffer where
  height : ℕ
  width : ℕ
  dtype : String
  elems : List ℚ
deriving DecidableEq

/-- `np.finfo(np.float64).max`, exactly: `(2 - 2⁻⁵²) · 2¹⁰²³`
(written as a cast from `ℕ` so that kernel evaluation of the concrete
fixtures is cheap). -/
def floatMax : ℚ := ((2 ^ 1024 - 2 ^ 971 : ℕ) : ℚ)

/-- Elementwise behaviour of `np.nan_to_num` with its default arguments:
NaN ↦ 0, +Inf ↦ float64 max, -Inf ↦ float64 min (= -max), finite values
unchanged. -/
def nanToNumQ : FVal → ℚ
  | .nan => 0
  | .posInf => floatMax
  | .negInf => -floatMax
  | .finite q => q

/-- `np.nan_to_num(hdul[0].data)` (source line 165). -/
def nanToNum (b : RawBuffer) : Buffer :=
  ⟨b.height, b.width, b.dtype, b.elems.map nanToNumQ⟩

/-! ### Statistics (`meta["data_stats"]`, source lines 72–78)

`np.min`/`np.max`/`np.mean`/`np.median`/`np.std` over the (by then finite)
data, computed in float64.  Minimum and maximum merely select an element, so
from finite data they can neither overflow nor produce non-finite values and
stay in `ℚ`.  Mean, median and standard deviation go through float64
additions, squarings and divisions, which *overflow*: an exact intermediate
result of magnitude at least `2¹⁰²⁴ - 2⁹⁷⁰` (the IEEE-754
round-to-nearest-even overflow threshold) becomes ±Inf, and infinities then
propagate through the remaining operations.  The model keeps in-range
intermediate results exact — it idealizes in-range rounding, which does not
affect the finite/non-finite classification proved below, and the concrete
fixtures evaluated use powers of two on which float64 arithmetic is exact
anyway — and takes reductions left-to-right (numpy's pairwise summation
blocking coincides with this on the at-most-two-element fixtures evaluated
here).  `np.min`/`np.max` raise on an empty array and `np.mean` of an empty
array is NaN; empty buffers are outside every claim's scope.  `np.std` is
the square root of the variance; since √ is irrational, the stats record
carries the variance `sqStd` (= std²); std is its monotone image, and is
equal/finite/infinite/NaN exactly when `sqStd` is. -/

def listMin : List ℚ → ℚ
  | [] => 0
  | x :: xs => xs.foldl min x

def listMax : List ℚ → ℚ
  | [] => 0
  | x :: xs => xs.foldl max x

def insertSorted (x : ℚ) : List ℚ → List ℚ
  | [] => [x]
  | y :: ys => if x ≤ y then x :: y :: ys else y :: insertSorted x ys

def sortList (l : List ℚ) : List ℚ := l.foldr insertSorted []

def nth (l : List ℚ) (i : ℕ) : ℚ := (l.get? i).getD 0

/-- The IEEE-754 double overflow threshold under round-to-nearest-even: an
exact result of magnitude at least `2¹⁰²⁴ - 2⁹⁷⁰` (halfway between the
largest finite double and `2¹⁰²⁴`) rounds to infinity. -/
def ovfThreshold : ℚ := ((2 ^ 1024 - 2 ^ 970 : ℕ) : ℚ)

/-- Classify an exact arithmetic result the way float64 does: saturate to
±Inf at the overflow threshold, keep it (exactly) otherwise. -/
def sat (q : ℚ) : FVal :=
  if ovfThreshold ≤ q then .posInf
  else if q ≤ -ovfThreshold then .negInf
  else .finite q

/-- float64 addition on possibly non-finite values. -/
def fAdd : FVal → FVal → FVal
  | .nan, _ => .nan
  | _, .nan => .nan
  | .posInf, .negInf => .nan
  | .negInf, .posInf => .nan
  | .posInf, _ => .posInf
  | _, .posInf => .posInf
  | .negInf, _ => .negInf
  | _, .negInf => .negInf
  | .finite a, .finite b => sat (a + b)

def fNeg : FVal → FVal
  | .nan => .nan
  | .posInf => .negInf
  | .negInf => .posInf
  | .finite q => .finite (-q)

def fSub (a b : FVal) : FVal := fAdd a (fNeg b)

/-- float64 squaring (`x*x`, the deviation squares inside `np.std`). -/
def fSq : FVal → FVal
  | .nan => .nan
  | .posInf => .posInf
  | .negInf => .posInf
  | .finite q => sat (q ^ 2)

/-- float64 division by an element count (counts are exact in float64, and
dividing by a count ≥ 1 shrinks the magnitude, so no overflow; `0/0` is
NaN, `±q/0` is ±Inf). -/
def fDivNat (v : FVal) (n : ℕ) : FVal :=
  match v with
  | .nan => .nan
  | .posInf => .posInf
  | .negInf => .negInf
  | .finite q =>
      if n = 0 then (if q = 0 then .nan else if 0 < q then .posInf else .negInf)
      else .finite (q / n)

/-- `np.add.reduce` over the data, left-to-right from `+0.0`. -/
def fSum (l : List FVal) : FVal := l.foldl fAdd (.finite 0)

/-- `np.mean`: float64 sum divided by the element count. -/
def f64Mean (l : List ℚ) : FVal := fDivNat (fSum (l.map FVal.finite)) l.length

/-- `np.median`: middle element of the sorted data, or the float64 average
of the two middle elements for even length. -/
def f64Median (l : List ℚ) : FVal :=
  let s := sortList l
  let n := s.length
  if n % 2 = 1 then .finite (nth s (n / 2))
  else fDivNat (fAdd (.finite (nth s (n / 2 - 1))) (.finite (nth s (n / 2)))) 2

/-- `np.std(l)²`: the float64 mean of the float64-squared deviations from
the float64 mean (ddof = 0). -/
def f64Var (l : List ℚ) : FVal :=
  fDivNat (fSum (l.map (fun x => fSq (fSub (.finite x) (f64Mean l))))) l.length

structure F64Stats where
  min : ℚ
  max : ℚ
  mean : FVal
  median : FVal
  sqStd : FVal
deriving DecidableEq

def f64Stats (l : List ℚ) : F64Stats :=
  ⟨listMin l, listMax l, f64Mean l, f64Median l, f64Var l⟩

/-! ### Metadata extraction (`extract_metadata`, source lines 33–79) -/

structure SunParams where
  cx : ℚ
  cy : ℚ
  radius : ℚ
deriving DecidableEq

structure Metadata where
  header : List (String × HVal)
  header_comments : Option (List (String × String))
  observation_time : Option String
  sun_params : SunParams
  data_shape : List ℕ
  dtype : String
  data_stats : F64Stats
deriving DecidableEq

/-- The fixed candidate-key priority list for the observation time
(source line 41). -/
def obsKeys : List String := ["DATE-OBS", "DATE_OBS", "DATE", "OBSDATE"]

/-- The four solar-disk geometry keys (source line 51). -/
def sunKeys : List String := ["FNDLMBXC", "FNDLMBYC", "FNDLMBMI", "FNDLMBMA"]

/-- The observation-time loop (source lines 41–48): for each candidate key
in order, if it is present, try `Time(header[k]).iso` (the `parseTime`
oracle); on success store it and `break`; on an exception fall through to the
next candidate. -/
def obsTimeScan (parseTime : HVal → Option String) (h : List Card) :
    List String → Option String
  | [] => none
  | k :: ks =>
      match headerGet? h k with
      | some v =>
          match parseTime v with
          | some t => some t
          | none => obsTimeScan parseTime h ks
      | none => obsTimeScan parseTime h ks

/-- The guarded sun-parameter derivation (source lines 51–65): only when all
four keys are present, convert them with `float` in order; any conversion
failure (exception) aborts the derivation. -/
def sunFromHeader? (header : List Card) : Option SunParams :=
  if sunKeys.all (fun k => headerMem header k) then
    ((headerGet? header "FNDLMBXC").bind pyFloatH?).bind fun cx =>
    ((headerGet? header "FNDLMBYC").bind pyFloatH?).bind fun cy =>
    ((headerGet? header "FNDLMBMI").bind pyFloatH?).bind fun minor =>
    ((headerGet? header "FNDLMBMA").bind pyFloatH?).map fun major =>
      ⟨cx, cy, (minor + major) / 4⟩
  else none

/-- The fallback sun parameters (source lines 66–68): `h, w = data.shape`;
centre `(w/2, h/2)`, radius `min(w, h) * 0.45`. -/
def sunDefault (data : Buffer) : SunParams :=
  ⟨(data.width : ℚ) / 2, (data.height : ℚ) / 2,
    ((min data.width data.height : ℕ) : ℚ) * (45 / 100)⟩

/-- `extract_metadata(header, data)` (source lines 33–79). -/
def extract_metadata (parseTime : HVal → Option String) (header : List Card)
    (data : Buffer) : Metadata :=
  let comm := extract_comments header
  ⟨header_to_dict header,
   if comm.isEmpty then none else some comm,
   obsTimeScan parseTime header obsKeys,
   (sunFromHeader? header).getD (sunDefault data),
   [data.height, data.width],
   data.dtype,
   f64Stats data.elems⟩

/-! ### Batch conversion loop (source lines 145–215)

Per uploaded file: `fits.open` + `hdul[0].data` (an exception here is caught
by the per-file `try`, modelled by `parseResult = none`), `np.nan_to_num`,
`extract_metadata`, `render_png` (which `try/except`s internally and
*returns* `False` on failure, writing `{base}.png` on success), then — only
if rendering succeeded — the JSON dump to `{base}.json`.  On
`render_success == False` the loop `continue`s before the JSON write
(source lines 178–180). -/

inductive Outcome where
  | success
  | renderFailed
  | error
deriving DecidableEq

/-- An uploaded file: its name plus what `fits.open(file)`/`hdul[0]` yields
on its bytes (`none` when opening or accessing the primary HDU raises). -/
structure UploadedFile where
  name : String
  parseResult : Option (List Card × RawBuffer)
deriving DecidableEq

/-- A file written into the output directory: the rendered PNG, or the
metadata JSON with its content. -/
inductive Entry where
  | png (path : String)
  | json (path : String) (meta : Metadata)
deriving DecidableEq

def entryPath : Entry → String
  | .png p => p
  | .json p _ => p

/-- `os.path.splitext(fname)[0]` on a bare filename: drop the last
dot-suffix, unless every character before the last dot is itself a dot
(leading-dot names have no extension).  Uploaded names carry no directory
separators. -/
def stripExt (s : String) : String :=
  let cs := s.toList
  match cs.reverse.findIdx? (fun c => c == '.') with
  | none => s
  | some i =>
      let dotPos := cs.length - 1 - i
      if (cs.take dotPos).all (fun c => c == '.') then s
      else ⟨cs.take dotPos⟩

/-- One iteration of the batch loop (source lines 159–194) for one file:
the outcome recorded for the file and the files it writes into the output
directory, in write order. -/
def processFile (renderOk : Buffer → Bool) (parseTime : HVal → Option String)
    (f : UploadedFile) : Outcome × List Entry :=
  match f.parseResult with
  | none => (.error, [])
  | some (header, raw) =>
      let data := nanToNum raw
      let meta := extract_metadata parseTime header data
      let base := stripExt f.name
      if renderOk data then
        (.success, [.png (base ++ ".png"), .json (base ++ ".json") meta])
      else
        (.renderFailed, [])

/-- The whole batch loop: per-file outcomes in order, and the concatenation
of everything written to the output directory. -/
def batchLoop (renderOk : Buffer → Bool) (parseTime : HVal → Option String) :
    List UploadedFile → List Outcome × List Entry
  | [] => ([], [])
  | f :: rest =>
      let r := processFile renderOk parseTime f
      let rs := batchLoop renderOk parseTime rest
      (r.1 :: rs.1, r.2 ++ rs.2)

def successCount (l : List Outcome) : ℕ := l.count .success

/-- `shutil.make_archive(os.path.join(output_dir, "converted"), "zip",
root_dir=output_dir)` (source lines 200–210): the zip file `converted.zip`
is created *inside* the directory being archived, so the subsequent
directory walk also adds the in-progress archive to itself.  The entry set
is therefore the directory's files plus `converted.zip`. -/
def makeArchiveEntries (dirContents : List String) : List String :=
  dirContents ++ ["converted.zip"]

/-- The end of the batch (source lines 196–215): run the loop, then build
the ZIP over the whole output directory — but only when `success_count > 0`
(`none` otherwise).  `initialDir` is whatever the output directory already
contained before this batch ran. -/
def convertBatchArchive (renderOk : Buffer → Bool)
    (parseTime : HVal → Option String) (initialDir : List String)
    (files : List UploadedFile) : Option (List String) :=
  let r := batchLoop renderOk parseTime files
  if 0 < successCount r.1 then
    some (makeArchiveEntries (initialDir ++ r.2.map entryPath))
  else none

/-! ### Auxiliary definitions used only to state claims -/

/-- A raw buffer with every NaN replaced by 0 beforehand and nothing else
changed (the comparison buffer of the NaN-substitution claim). -/
def replaceNaNZero (b : RawBuffer) : RawBuffer :=
  ⟨b.height, b.width, b.dtype,
   b.elems.map (fun v => match v with | FVal.nan => FVal.finite 0 | v => v)⟩

/-- The value of the last card with keyword `k`, in record order ("last
occurrence wins"). -/
def lastVal? (k : String) : List Card → Option HVal
  | [] => none
  | c :: t =>
      (lastVal? k t).orElse (fun _ => if c.keyword == k then some c.value else none)

/-- The comment of the last card with keyword `k` that carries a non-empty
comment. -/
def lastComment? (k : String) : List Card → Option String
  | [] => none
  | c :: t =>
      (lastComment? k t).orElse
        (fun _ => if c.keyword == k && c.comment != "" then some c.comment else none)

/-! ### Concrete fixtures for witnesses and counterexamples -/

def smallRaw : RawBuffer :=
  ⟨2, 2, "float64", [FVal.finite 1, FVal.finite 2, FVal.finite 3, FVal.finite 4]⟩

def tf1 : UploadedFile := ⟨"file1.fits", some ([], smallRaw)⟩

def tf2 : UploadedFile := ⟨"file2.fits", none⟩

def tf3 : UploadedFile := ⟨"file3.fits", some ([], smallRaw)⟩

def tfRender : UploadedFile := ⟨"obs1.fits", some ([], smallRaw)⟩

def sunHdr : List Card :=
  [⟨"FNDLMBXC", .scalar (.int 10), ""⟩, ⟨"FNDLMBYC", .scalar (.int 20), ""⟩,
   ⟨"FNDLMBMI", .scalar (.int 4), ""⟩, ⟨"FNDLMBMA", .scalar (.int 8), ""⟩]

def demoBuf : Buffer := ⟨4, 6, "float64", [1, 2, 3]⟩

def nanBuf : RawBuffer := ⟨1, 3, "float64", [FVal.nan, FVal.finite 2, FVal.posInf]⟩

def infBuf : RawBuffer := ⟨1, 2, "float64", [FVal.posInf, FVal.finite 1]⟩

def stdOvfBuf : RawBuffer :=
  ⟨1, 2, "float64", [FVal.nan, FVal.finite ((2 ^ 1023 : ℕ) : ℚ)]⟩

def wrapHdr : List Card := [⟨"SIMPLE", .npGeneric (.bool true), "conforms"⟩]

def dupCard1 : Card := ⟨"KEY1", .scalar (.int 1), "first remark"⟩

def dupCard2 : Card := ⟨"KEY1", .scalar (.int 2), ""⟩

def dupCard3 : Card := ⟨"KEY1", .scalar (.int 3), "second remark"⟩

/-! ## Helper lemmas -/

theorem dictGet?_insert_self (d : List (String × α)) (k : String) (v : α) :
    dictGet? (dictInsert d k v) k = some v := by
  induction d with
  | nil => simp [dictInsert, dictGet?]
  | cons p tl ih =>
      by_cases hp : p.1 == k
      · simp [dictInsert, hp, dictGet?]
      · simp only [dictInsert, hp, Bool.false_eq_true, if_false]
        simpa [dictGet?, hp] using ih

theorem dictGet?_insert_other (d : List (String × α)) {k k' : String} (v : α)
    (hkk : k' ≠ k) :
    dictGet? (dictInsert d k' v) k = dictGet? d k := by
  induction d with
  | nil => simp [dictInsert, dictGet?, hkk]
  | cons p tl ih =>
      by_cases hp : p.1 == k'
      · have hpk : p.1 = k' := by simpa using hp
        simp [dictInsert, hp, dictGet?, hpk, hkk]
      · simp only [dictInsert, hp, Bool.false_eq_true, if_false]
        by_cases hpk : p.1 == k
        · simp [dictGet?, hpk]
        · simpa [dictGet?, hpk] using ih

theorem headerMem_eq_isSome (h : List Card) (k : String) :
    headerMem h k = (headerGet? h k).isSome := by
  induction h with
  | nil => rfl
  | cons c t ih =>
      by_cases hc : c.keyword == k
      · simp [headerMem, headerGet?, hc]
      · simpa [headerMem, headerGet?, hc] using ih

theorem obsTimeScan_eq_head? (pt : HVal → Option String) (h : List Card)
    (ks : List String) :
    obsTimeScan pt h ks
      = (ks.filterMap (fun k => (headerGet? h k).bind pt)).head? := by
  induction ks with
  | nil => rfl
  | cons k t ih =>
      unfold obsTimeScan
      cases hk : headerGet? h k with
      | none => simp [List.filterMap_cons, hk, ih]
      | some v =>
          cases hv : pt v with
          | none => simp [List.filterMap_cons, hk, hv, ih]
          | some s => simp [List.filterMap_cons, hk, hv]

/-! ## Claims -/

/-- C6, confirmed: the observation-time scan walks the fixed candidate list
`DATE-OBS, DATE_OBS, DATE, OBSDATE` in that order and yields the first
candidate that is both present in the header and parses (`parseTime`
returning `some`); a present key that fails to parse is skipped, and the
field is omitted (`none`) when no candidate succeeds.  The right-hand side
is exactly that first-success-wins scan. -/
theorem C6_observation_time (pt : HVal → Option String) (header : List Card)
    (data : Buffer) :
    (extract_metadata pt header data).observation_time
      = ((["DATE-OBS", "DATE_OBS", "DATE", "OBSDATE"] : List String).filterMap
          (fun k => (headerGet? header k).bind pt)).head? := by
  simpa [extract_metadata, obsKeys] using obsTimeScan_eq_head? pt header obsKeys

/-- C3, confirmed: the batch loop processes every file: the outcome list has
one entry per input, each file's outcome and written files depend only on
that file, and a parse error, render failure, or any caught exception on one
file (its `processFile` result) never prevents the remaining files from
being processed. -/
theorem C3_per_file_isolation (renderOk : Buffer → Bool)
    (parseTime : HVal → Option String) (files : List UploadedFile) :
    (batchLoop renderOk parseTime files).1
        = files.map (fun f => (processFile renderOk parseTime f).1)
    ∧ (batchLoop renderOk parseTime files).2
        = (files.map (fun f => (processFile renderOk parseTime f).2)).flatten := by
  induction files with
  | nil => exact ⟨rfl, rfl⟩
  | cons f t ih => simp [batchLoop, ih.1, ih.2]

/-- C1 as stated is false on the code: `obs1.fits` parses successfully, the
render step fails, and the loop emits *nothing* for it — in particular no
metadata JSON — because `continue` runs before the JSON write (source lines
178–180). -/
theorem C1_counterexample :
    tfRender.parseResult.isSome = true
    ∧ batchLoop (fun _ => false) (fun _ => none) [tfRender]
        = ([Outcome.renderFailed], []) :=
  ⟨rfl, rfl⟩

/-- C1, corrected: when a file parses but its render step fails, the loop
records `renderFailed` for it and emits *neither* the PNG nor the metadata
JSON for that file (render failure skips the file's outputs entirely), while
the remaining files are still processed exactly as before. -/
theorem C1_render_failure_skips_json (renderOk : Buffer → Bool)
    (parseTime : HVal → Option String) (f : UploadedFile) (hdr : List Card)
    (raw : RawBuffer) (rest : List UploadedFile)
    (hp : f.parseResult = some (hdr, raw))
    (hr : renderOk (nanToNum raw) = false) :
    batchLoop renderOk parseTime (f :: rest)
      = (Outcome.renderFailed :: (batchLoop renderOk parseTime rest).1,
         (batchLoop renderOk parseTime rest).2) := by
  simp [batchLoop, processFile, hp, hr]

/-- Witness for the corrected C1 at a concrete input. -/
theorem C1_witness :
    tfRender.parseResult = some ([], smallRaw)
    ∧ batchLoop (fun _ => false) (fun _ => none) [tfRender, tf1]
        = (Outcome.renderFailed
             :: (batchLoop (fun _ => false) (fun _ => none) [tf1]).1,
           (batchLoop (fun _ => false) (fun _ => none) [tf1]).2) :=
  ⟨rfl, C1_render_failure_skips_json (fun _ => false) (fun _ => none) tfRender
    [] smallRaw [tf1] rfl rfl⟩

theorem batchLoop_entryPaths (renderOk : Buffer → Bool)
    (parseTime : HVal → Option String) (files : List UploadedFile) :
    ((batchLoop renderOk parseTime files).2).map entryPath
      = (files.filter
            (fun f => (processFile renderOk parseTime f).1 = Outcome.success)).flatMap
          (fun f => [stripExt f.name ++ ".png", stripExt f.name ++ ".json"]) := by
  induction files with
  | nil => rfl
  | cons f t ih =>
      simp only [batchLoop, List.map_append, ih, List.filter_cons]
      rcases hpr : f.parseResult with _ | ⟨hdr, raw⟩
      · simp [processFile, hpr]
      · by_cases hr : renderOk (nanToNum raw)
        · simp [processFile, hpr, hr, entryPath]
        · simp [processFile, hpr, hr]

/-- C2 as stated is false on the code: with three fresh inputs of which
`file2.fits` is unparsable and an initially empty output directory, the
archive holds the two `.png`+`.json` pairs *and a fifth entry*,
`converted.zip` — `shutil.make_archive` is pointed at the very directory in
which it creates the zip, so the walk adds the in-progress archive to
itself.  That fifth entry is not a pair entry of any input. -/
theorem C2_counterexample :
    convertBatchArchive (fun _ => true) (fun _ => none) [] [tf1, tf2, tf3]
      = some ["file1.png", "file1.json", "file3.png", "file3.json",
              "converted.zip"]
    ∧ ("converted.zip" : String)
        ∉ ["file1.png", "file1.json", "file2.png", "file2.json",
           "file3.png", "file3.json"] :=
  ⟨rfl, by decide⟩

/-- C2, corrected: whenever at least one file succeeds, the produced archive
contains exactly one `{baseName}.png` and one `{baseName}.json` entry per
successfully processed input (base name = input name with its extension
stripped), *plus* one entry for the archive file itself (`converted.zip`),
plus whatever the output directory already contained before the batch; for a
fresh directory that is the pairs and the self-entry, nothing more. -/
theorem C2_archive_contents (renderOk : Buffer → Bool)
    (parseTime : HVal → Option String) (initialDir : List String)
    (files : List UploadedFile)
    (h : 0 < successCount (batchLoop renderOk parseTime files).1) :
    convertBatchArchive renderOk parseTime initialDir files
      = some (initialDir
          ++ (files.filter
                (fun f => (processFile renderOk parseTime f).1 = Outcome.success)).flatMap
              (fun f => [stripExt f.name ++ ".png", stripExt f.name ++ ".json"])
          ++ ["converted.zip"]) := by
  simp [convertBatchArchive, h, makeArchiveEntries, batchLoop_entryPaths,
    List.append_assoc]

/-- Witness for the corrected C2 at a concrete input (one pre-existing file
in the output directory, three uploads of which the second is unparsable). -/
theorem C2_witness :
    0 < successCount
        (batchLoop (fun _ => true) (fun _ => none) [tf1, tf2, tf3]).1
    ∧ convertBatchArchive (fun _ => true) (fun _ => none) ["conversion_log.txt"]
        [tf1, tf2, tf3]
      = some (["conversion_log.txt"]
          ++ ([tf1, tf2, tf3].filter
                (fun f => (processFile (fun _ => true) (fun _ => none) f).1
                    = Outcome.success)).flatMap
              (fun f => [stripExt f.name ++ ".png", stripExt f.name ++ ".json"])
          ++ ["converted.zip"]) :=
  ⟨by decide, C2_archive_contents (fun _ => true) (fun _ => none)
    ["conversion_log.txt"] [tf1, tf2, tf3] (by decide)⟩

/-- C4, confirmed: when all four geometry keys are present and each value
converts with `float`, the extracted sun parameters are the centre
`(FNDLMBXC, FNDLMBYC)` with radius `(FNDLMBMI + FNDLMBMA) / 4`. -/
theorem C4_sun_params (pt : HVal → Option String) (header : List Card)
    (data : Buffer) (vx vy vi va : HVal) (qx qy qi qa : ℚ)
    (hx : headerGet? header "FNDLMBXC" = some vx) (hqx : pyFloatH? vx = some qx)
    (hy : headerGet? header "FNDLMBYC" = some vy) (hqy : pyFloatH? vy = some qy)
    (hi : headerGet? header "FNDLMBMI" = some vi) (hqi : pyFloatH? vi = some qi)
    (ha : headerGet? header "FNDLMBMA" = some va) (hqa : pyFloatH? va = some qa) :
    (extract_metadata pt header data).sun_params = ⟨qx, qy, (qi + qa) / 4⟩ := by
  have hall : sunKeys.all (fun k => headerMem header k) = true := by
    simp [sunKeys, headerMem_eq_isSome, hx, hy, hi, ha]
  simp [extract_metadata, sunFromHeader?, hall, hx, hqx, hy, hqy, hi, hqi,
    ha, hqa]

/-- Witness for C4: `FNDLMBXC=10, FNDLMBYC=20, FNDLMBMI=4, FNDLMBMA=8`
yields centre `(10, 20)` and radius `(4+8)/4 = 3`. -/
theorem C4_witness :
    headerGet? sunHdr "FNDLMBXC" = some (HVal.scalar (PyScalar.int 10))
    ∧ (extract_metadata (fun _ => none) sunHdr demoBuf).sun_params
        = ⟨10, 20, 3⟩ := by
  refine ⟨by decide, ?_⟩
  have h := C4_sun_params (fun _ => none) sunHdr demoBuf
    (HVal.scalar (PyScalar.int 10)) (HVal.scalar (PyScalar.int 20))
    (HVal.scalar (PyScalar.int 4)) (HVal.scalar (PyScalar.int 8))
    10 20 4 8 (by decide) (by decide) (by decide) (by decide) (by decide)
    (by decide) (by decide) (by decide)
  rw [h]
  norm_num

theorem bindChain4_none (o1 o2 o3 o4 : Option ℚ)
    (h : o1 = none ∨ o2 = none ∨ o3 = none ∨ o4 = none) :
    (o1.bind fun cx => o2.bind fun cy => o3.bind fun minor =>
      o4.map fun major => SunParams.mk cx cy ((minor + major) / 4)) = none := by
  cases o1 <;> cases o2 <;> cases o3 <;> cases o4 <;> simp_all

theorem sunFromHeader?_eq_none (header : List Card)
    (h : ∃ k ∈ sunKeys, (headerGet? header k).bind pyFloatH? = none) :
    sunFromHeader? header = none := by
  by_cases hall : sunKeys.all (fun k => headerMem header k) = true
  · unfold sunFromHeader?
    simp only [hall, if_true]
    apply bindChain4_none
    obtain ⟨k, hk, hnone⟩ := h
    fin_cases hk
    · exact Or.inl hnone
    · exact Or.inr (Or.inl hnone)
    · exact Or.inr (Or.inr (Or.inl hnone))
    · exact Or.inr (Or.inr (Or.inr hnone))
  · unfold sunFromHeader?
    simp [hall]

/-- C5, confirmed: whenever the guarded derivation cannot produce a value —
a geometry key missing from the header, or all four present but some value
failing `float` conversion (both cases are exactly "some key's
lookup-then-convert chain yields nothing") — `extract_metadata` falls back
to the single buffer-derived default: centre `(width/2, height/2)`, radius
`min(width, height) * 0.45`. -/
theorem C5_sun_default (pt : HVal → Option String) (header : List Card)
    (data : Buffer)
    (h : ∃ k ∈ sunKeys, (headerGet? header k).bind pyFloatH? = none) :
    (extract_metadata pt header data).sun_params = sunDefault data := by
  simp [extract_metadata, sunFromHeader?_eq_none header h]

/-- Witness for C5: an empty header (all four keys missing) on a 4×6 buffer
gives centre `(3, 2)` and radius `min(6,4) * 0.45 = 1.8`. -/
theorem C5_witness :
    (∃ k ∈ sunKeys, (headerGet? ([] : List Card) k).bind pyFloatH? = none)
    ∧ (extract_metadata (fun _ => none) [] demoBuf).sun_params
        = sunDefault demoBuf :=
  ⟨⟨"FNDLMBXC", by decide, rfl⟩,
   C5_sun_default (fun _ => none) [] demoBuf ⟨"FNDLMBXC", by decide, rfl⟩⟩

theorem map_nanToNumQ_replace (l : List FVal) :
    (l.map (fun v => match v with | FVal.nan => FVal.finite 0 | v => v)).map
        nanToNumQ
      = l.map nanToNumQ := by
  induction l with
  | nil => rfl
  | cons v t ih => cases v <;> simp [ih, nanToNumQ]

theorem sat_ne_nan (q : ℚ) : sat q ≠ FVal.nan := by
  unfold sat
  split
  · simp
  · split <;> simp

theorem fAdd_finite_finite (a b : ℚ) :
    fAdd (FVal.finite a) (FVal.finite b) = sat (a + b) := rfl

theorem fDivNat_ne_nan {v : FVal} {n : ℕ} (hv : v ≠ FVal.nan) (hn : n ≠ 0) :
    fDivNat v n ≠ FVal.nan := by
  cases v with
  | nan => exact absurd rfl hv
  | posInf => simp [fDivNat]
  | negInf => simp [fDivNat]
  | finite q => simp [fDivNat, hn]

/-- The median of finite data is never NaN: it is either an element or the
float64 average of two elements, and an average of two finite values is
finite or ±Inf, never NaN (no full-array reduction is involved, so this is
independent of summation order). -/
theorem f64Median_ne_nan (l : List ℚ) : f64Median l ≠ FVal.nan := by
  simp only [f64Median]
  by_cases hn : (sortList l).length % 2 = 1
  · simp [hn]
  · simp only [if_neg hn]
    refine fDivNat_ne_nan ?_ (by norm_num)
    rw [fAdd_finite_finite]
    exact sat_ne_nan _

set_option maxRecDepth 8000 in
/-- C7's "data_stats never contains NaN or Infinity" part is false of the
program: `stdOvfBuf` is a NaN-carrying buffer of genuine float64 values,
`np.nan_to_num` turns it into the finite data `[0, 2¹⁰²³]`,
and `np.std` squares the deviations `±2¹⁰²²`, overflowing float64 to
+Inf — the std field of the emitted stats is Infinity.  (Every float64
intermediate on this fixture is exact until the overflow, so the trace
below is numpy's own.) -/
theorem C7_counterexample :
    FVal.nan ∈ stdOvfBuf.elems
    ∧ (extract_metadata (fun _ => none) [] (nanToNum stdOvfBuf)).data_stats.sqStd
        = FVal.posInf :=
  ⟨by decide, by with_unfolding_all decide⟩

/-- C7, corrected: the NaN substitution happens exactly once, before both
consumers: for a NaN-carrying buffer, the processed buffer — the input the
pipeline hands to both `extract_metadata` and `render_png` (computed once
at source line 165) — is *identical* to that of the buffer with NaNs
pre-replaced by 0, and therefore so is the entire derived `data_stats`
record.  The original claim's "never contains NaN or Infinity" guarantee,
however, does not hold: the float64 statistics can overflow to Infinity
even on the substituted finite data (see `C7_counterexample`); what does
survive is that the median is never NaN. -/
theorem C7_nan_substitution (pt : HVal → Option String) (header : List Card)
    (b : RawBuffer) (_hnan : FVal.nan ∈ b.elems) :
    nanToNum (replaceNaNZero b) = nanToNum b
    ∧ (extract_metadata pt header (nanToNum (replaceNaNZero b))).data_stats
        = (extract_metadata pt header (nanToNum b)).data_stats
    ∧ (extract_metadata pt header (nanToNum b)).data_stats.median
        ≠ FVal.nan := by
  have he : nanToNum (replaceNaNZero b) = nanToNum b := by
    simp only [nanToNum, replaceNaNZero, Buffer.mk.injEq, true_and]
    exact map_nanToNumQ_replace b.elems
  exact ⟨he, by rw [he], f64Median_ne_nan _⟩

/-- Witness for the corrected C7 at a concrete NaN-carrying buffer. -/
theorem C7_witness :
    FVal.nan ∈ nanBuf.elems
    ∧ nanToNum (replaceNaNZero nanBuf) = nanToNum nanBuf :=
  ⟨by decide, (C7_nan_substitution (fun _ => none) [] nanBuf (by decide)).1⟩

theorem mem_dictInsert {d : List (String × α)} {p : String × α} {k : String}
    {v : α} (hp : p ∈ dictInsert d k v) : p = (k, v) ∨ p ∈ d := by
  induction d with
  | nil => simpa [dictInsert] using hp
  | cons q tl ih =>
      by_cases hq : q.1 == k
      · simp only [dictInsert, hq, if_true] at hp
        rcases List.mem_cons.mp hp with rfl | hptl
        · exact Or.inl rfl
        · exact Or.inr (List.mem_cons_of_mem _ hptl)
      · simp only [dictInsert, hq, Bool.false_eq_true, if_false] at hp
        rcases List.mem_cons.mp hp with rfl | hptl
        · exact Or.inr (List.mem_cons_self _ _)
        · rcases ih hptl with h' | h'
          · exact Or.inl h'
          · exact Or.inr (List.mem_cons_of_mem _ h')

theorem header_to_dict_aux (cards : List Card) (d : List (String × HVal))
    (hd : ∀ p ∈ d, (p.1 ≠ "" ∧ p.1 ≠ "COMMENT" ∧ p.1 ≠ "HISTORY")
          ∧ ∃ s, p.2 = HVal.scalar s) :
    ∀ p ∈ cards.foldl
        (fun d card =>
          if card.keyword == "" || card.keyword == "COMMENT"
              || card.keyword == "HISTORY" then d
          else dictInsert d card.keyword (npItem card.value)) d,
      (p.1 ≠ "" ∧ p.1 ≠ "COMMENT" ∧ p.1 ≠ "HISTORY")
      ∧ ∃ s, p.2 = HVal.scalar s := by
  induction cards generalizing d with
  | nil => simpa using hd
  | cons c t ih =>
      intro p hp
      rw [List.foldl_cons] at hp
      refine ih _ ?_ p hp
      intro q hq
      by_cases hbad : (c.keyword == "" || c.keyword == "COMMENT"
          || c.keyword == "HISTORY") = true
      · simp only [hbad, if_true] at hq
        exact hd q hq
      · simp only [hbad, Bool.false_eq_true, if_false] at hq
        rcases mem_dictInsert hq with rfl | hq'
        · refine ⟨?_, ?_⟩
          · simp only [Bool.or_eq_true, beq_iff_eq, not_or] at hbad
            exact ⟨hbad.1.1, hbad.1.2, hbad.2⟩
          · cases c.value <;> exact ⟨_, rfl⟩
        · exact hd q hq'

theorem header_to_dict_get_aux (k : String) (hk1 : k ≠ "") (hk2 : k ≠ "COMMENT")
    (hk3 : k ≠ "HISTORY") (cards : List Card) (d : List (String × HVal)) :
    dictGet?
        (cards.foldl
          (fun d card =>
            if card.keyword == "" || card.keyword == "COMMENT"
                || card.keyword == "HISTORY" then d
            else dictInsert d card.keyword (npItem card.value)) d) k
      = ((lastVal? k cards).map npItem).orElse (fun _ => dictGet? d k) := by
  induction cards generalizing d with
  | nil => simp [lastVal?, Option.orElse]
  | cons c t ih =>
      rw [List.foldl_cons, ih]
      cases hl : lastVal? k t with
      | some v => simp [lastVal?, hl, Option.orElse]
      | none =>
          simp only [lastVal?, hl, Option.orElse, Option.map]
          by_cases hck : c.keyword == k
          · have hckk : c.keyword = k := by simpa using hck
            simp [hck, hckk, dictGet?_insert_self, hk1, hk2, hk3,
              Option.orElse]
          · have hne : c.keyword ≠ k := by simpa using hck
            by_cases hbad : (c.keyword == "" || c.keyword == "COMMENT"
                || c.keyword == "HISTORY") = true
            · simp [hbad, hck]
            · simp only [hbad, Bool.false_eq_true, if_false, hck]
              rw [dictGet?_insert_other _ _ hne]

theorem header_to_dict_get (header : List Card) (k : String) (hk1 : k ≠ "")
    (hk2 : k ≠ "COMMENT") (hk3 : k ≠ "HISTORY") :
    dictGet? (header_to_dict header) k = (lastVal? k header).map npItem := by
  unfold header_to_dict
  rw [header_to_dict_get_aux k hk1 hk2 hk3 header []]
  cases lastVal? k header <;> simp [Option.orElse, dictGet?]

theorem extract_comments_get_aux (k : String) (hk1 : k ≠ "") (cards : List Card)
    (m : List (String × String)) :
    dictGet?
        (cards.foldl
          (fun m card =>
            if card.keyword != "" && card.comment != "" then
              dictInsert m card.keyword card.comment
            else m) m) k
      = (lastComment? k cards).orElse (fun _ => dictGet? m k) := by
  induction cards generalizing m with
  | nil => simp [lastComment?, Option.orElse]
  | cons c t ih =>
      rw [List.foldl_cons, ih]
      cases hl : lastComment? k t with
      | some v => simp [lastComment?, hl, Option.orElse]
      | none =>
          simp only [lastComment?, hl, Option.orElse]
          by_cases hck : c.keyword == k
          · have hckk : c.keyword = k := by simpa using hck
            by_cases hcm : c.comment != ""
            · simp [hcm, hck, hckk, dictGet?_insert_self, hk1, Option.orElse]
            · simp only [Bool.not_eq_true] at hcm
              simp [hcm, hck]
          · have hne : c.keyword ≠ k := by simpa using hck
            by_cases hgo : (c.keyword != "" && c.comment != "") = true
            · simp only [hgo, if_true]
              rw [dictGet?_insert_other _ _ hne]
              simp [hck, Option.orElse]
            · simp [hgo, hck]

theorem extract_comments_get (header : List Card) (k : String) (hk1 : k ≠ "") :
    dictGet? (extract_comments header) k = lastComment? k header := by
  unfold extract_comments
  rw [extract_comments_get_aux k hk1 header []]
  cases lastComment? k header <;> simp [Option.orElse, dictGet?]

theorem lastVal?_isSome_of_mem {c : Card} {h : List Card} (hc : c ∈ h) :
    (lastVal? c.keyword h).isSome = true := by
  induction h with
  | nil => cases hc
  | cons d t ih =>
      rcases List.mem_cons.mp hc with rfl | hct
      · unfold lastVal?
        cases lastVal? c.keyword t <;> simp [Option.orElse]
      · unfold lastVal?
        cases hl : lastVal? c.keyword t with
        | some v => simp [Option.orElse]
        | none => rw [hl] at ih; simpa using ih hct

/-- C8, confirmed: every entry of the `header` mapping has a key distinct
from the reserved free-text keys `COMMENT` and `HISTORY` and a value that is
a plain scalar (numpy scalar wrappers having been unwrapped by `.item()`),
and every header card with a non-empty, non-reserved keyword — raw headers
have non-empty keys in the spec's data model — is mapped. -/
theorem C8_header_portable (header : List Card) :
    (∀ p ∈ header_to_dict header,
        (p.1 ≠ "COMMENT" ∧ p.1 ≠ "HISTORY") ∧ ∃ s, p.2 = HVal.scalar s)
    ∧ (∀ c ∈ header,
        c.keyword ≠ "" → c.keyword ≠ "COMMENT" → c.keyword ≠ "HISTORY" →
        (dictGet? (header_to_dict header) c.keyword).isSome = true) := by
  constructor
  · intro p hp
    have hinv := header_to_dict_aux header [] (by simp) p hp
    exact ⟨⟨hinv.1.2.1, hinv.1.2.2⟩, hinv.2⟩
  · intro c hc h1 h2 h3
    rw [header_to_dict_get header c.keyword h1 h2 h3]
    simp [lastVal?_isSome_of_mem hc]

/-- Witness for C8: a numpy-wrapped boolean `SIMPLE` card lands in the
mapping unwrapped, under a non-reserved key. -/
theorem C8_witness :
    ("SIMPLE", HVal.scalar (PyScalar.bool true)) ∈ header_to_dict wrapHdr
    ∧ ("SIMPLE" : String) ≠ "COMMENT" :=
  ⟨by decide,
   (((C8_header_portable wrapHdr).1
      ("SIMPLE", HVal.scalar (PyScalar.bool true)) (by decide)).1).1⟩

/-- C9 as stated is false for the comments mapping: with two occurrences of
`KEY1` — the first commented "first remark", the last with an *empty*
comment — `extract_comments` keeps "first remark", not the last
occurrence's comment (which is empty): the implementation keeps the last
occurrence *with a non-empty comment*, not the last occurrence. -/
theorem C9_counterexample :
    dictGet? (extract_comments [dupCard1, dupCard2]) "KEY1" = some "first remark"
    ∧ (([dupCard1, dupCard2].filter (fun c => c.keyword == "KEY1")).getLast?).map
          Card.comment = some ""
    ∧ (some "first remark" : Option String) ≠ some "" :=
  ⟨by decide, by decide, by decide⟩

/-- C9, corrected: for a non-reserved key occurring several times, the
`header` mapping holds the (unwrapped) value of the *last occurrence* in
record order, and the `header_comments` mapping holds the comment of the
last occurrence *that has a non-empty comment* (an occurrence with an empty
comment neither overwrites nor clears an earlier comment). -/
theorem C9_last_occurrence (header : List Card) (k : String) (hk1 : k ≠ "")
    (hk2 : k ≠ "COMMENT") (hk3 : k ≠ "HISTORY") :
    dictGet? (header_to_dict header) k = (lastVal? k header).map npItem
    ∧ dictGet? (extract_comments header) k = lastComment? k header :=
  ⟨header_to_dict_get header k hk1 hk2 hk3, extract_comments_get header k hk1⟩

/-- Witness for the corrected C9 on a concrete duplicated key. -/
theorem C9_witness :
    dictGet? (header_to_dict [dupCard1, dupCard3]) "KEY1"
        = (lastVal? "KEY1" [dupCard1, dupCard3]).map npItem
    ∧ dictGet? (extract_comments [dupCard1, dupCard3]) "KEY1"
        = lastComment? "KEY1" [dupCard1, dupCard3] :=
  C9_last_occurrence [dupCard1, dupCard3] "KEY1" (by decide) (by decide)
    (by decide)

theorem abs_foldl_min_le {M x : ℚ} {xs : List ℚ} (hx : |x| ≤ M)
    (hxs : ∀ y ∈ xs, |y| ≤ M) : |xs.foldl min x| ≤ M := by
  induction xs generalizing x with
  | nil => simpa using hx
  | cons y ys ih =>
      rw [List.foldl_cons]
      refine ih ?_ (fun z hz => hxs z (List.mem_cons_of_mem _ hz))
      rcases min_choice x y with h | h <;> rw [h]
      · exact hx
      · exact hxs y (List.mem_cons_self _ _)

theorem abs_foldl_max_le {M x : ℚ} {xs : List ℚ} (hx : |x| ≤ M)
    (hxs : ∀ y ∈ xs, |y| ≤ M) : |xs.foldl max x| ≤ M := by
  induction xs generalizing x with
  | nil => simpa using hx
  | cons y ys ih =>
      rw [List.foldl_cons]
      refine ih ?_ (fun z hz => hxs z (List.mem_cons_of_mem _ hz))
      rcases max_choice x y with h | h <;> rw [h]
      · exact hx
      · exact hxs y (List.mem_cons_self _ _)

theorem abs_listMin_le {M : ℚ} (hM : 0 ≤ M) {l : List ℚ}
    (hl : ∀ y ∈ l, |y| ≤ M) : |listMin l| ≤ M := by
  cases l with
  | nil => simpa [listMin] using hM
  | cons x xs =>
      exact abs_foldl_min_le (hl x (List.mem_cons_self _ _))
        (fun y hy => hl y (List.mem_cons_of_mem _ hy))

theorem abs_listMax_le {M : ℚ} (hM : 0 ≤ M) {l : List ℚ}
    (hl : ∀ y ∈ l, |y| ≤ M) : |listMax l| ≤ M := by
  cases l with
  | nil => simpa [listMax] using hM
  | cons x xs =>
      exact abs_foldl_max_le (hl x (List.mem_cons_self _ _))
        (fun y hy => hl y (List.mem_cons_of_mem _ hy))

set_option maxRecDepth 8000 in
/-- C10's finiteness conclusion is false of the program: for the buffer
`[+Inf, 1]`, `np.nan_to_num` yields `[floatMax, 1]` — entirely finite —
but `np.std` squares deviations of about `floatMax/2`, overflowing float64
to +Inf: the std field of the emitted stats is Infinity even though the
input infinity was replaced by a finite value. -/
theorem C10_counterexample :
    FVal.posInf ∈ infBuf.elems
    ∧ (extract_metadata (fun _ => none) [] (nanToNum infBuf)).data_stats.sqStd
        = FVal.posInf :=
  ⟨by decide, by with_unfolding_all decide⟩

/-- C10, corrected: `np.nan_to_num` sends +Inf to the float64 maximum
`2¹⁰²⁴ - 2⁹⁷¹` and -Inf to its negation — large finite values, not 0 — so
the buffer seen by the stats and the render step is entirely finite, with
every element bounded by the float64 maximum (given the model invariant
`hfin` that the finite float64 input data is so bounded); min and max —
which merely select elements — are then finite and bounded by it too.
Mean, median and std, however, are *computed* in float64 and can overflow
to Infinity even on this finite data (`C10_counterexample`); of them, the
median at least is never NaN. -/
theorem C10_inf_replaced (pt : HVal → Option String) (header : List Card)
    (b : RawBuffer)
    (_hinf : FVal.posInf ∈ b.elems ∨ FVal.negInf ∈ b.elems)
    (hfin : ∀ q : ℚ, FVal.finite q ∈ b.elems → |q| ≤ floatMax) :
    nanToNumQ FVal.posInf = floatMax
    ∧ nanToNumQ FVal.negInf = -floatMax
    ∧ floatMax ≠ 0
    ∧ (10 : ℚ) ^ 300 < floatMax
    ∧ (∀ q ∈ (nanToNum b).elems, |q| ≤ floatMax)
    ∧ |(extract_metadata pt header (nanToNum b)).data_stats.min| ≤ floatMax
    ∧ |(extract_metadata pt header (nanToNum b)).data_stats.max| ≤ floatMax
    ∧ (extract_metadata pt header (nanToNum b)).data_stats.median
        ≠ FVal.nan := by
  have hMpos : (0 : ℚ) < floatMax := by norm_num [floatMax]
  have hM : (0 : ℚ) ≤ floatMax := le_of_lt hMpos
  have hbound : ∀ q ∈ (nanToNum b).elems, |q| ≤ floatMax := by
    intro q hq
    simp only [nanToNum] at hq
    obtain ⟨v, hv, rfl⟩ := List.mem_map.mp hq
    cases v with
    | nan => simpa [nanToNumQ] using hM
    | posInf => simp [nanToNumQ, abs_of_pos hMpos]
    | negInf => simp [nanToNumQ, abs_of_pos hMpos]
    | finite q => exact hfin q hv
  refine ⟨rfl, rfl, ne_of_gt hMpos, by norm_num [floatMax], hbound,
    ?_, ?_, ?_⟩
  · exact abs_listMin_le hM hbound
  · exact abs_listMax_le hM hbound
  · exact f64Median_ne_nan _

/-- Witness for the corrected C10 at a concrete buffer containing +Inf. -/
theorem C10_witness :
    (FVal.posInf ∈ infBuf.elems ∨ FVal.negInf ∈ infBuf.elems)
    ∧ |(extract_metadata (fun _ => none) [] (nanToNum infBuf)).data_stats.max|
        ≤ floatMax :=
  ⟨Or.inl (by decide),
   (C10_inf_replaced (fun _ => none) [] infBuf (Or.inl (by decide))
     (by
        intro q hq
        simp [infBuf] at hq
        subst hq
        norm_num [floatMax])).2.2.2.2.2.2.1⟩

end FITS2PNG
